import Mathlib

set_option linter.unusedVariables false
set_option maxHeartbeats 1000000

namespace Fsutil

instance {ε α : Type} [DecidableEq ε] [DecidableEq α] : DecidableEq (Except ε α)
  | Except.error e₁, Except.error e₂ => decidable_of_iff (e₁ = e₂) (by simp)
  | Except.ok v₁, Except.ok v₂ => decidable_of_iff (v₁ = v₂) (by simp)
  | Except.error _, Except.ok _ => isFalse (fun hc => by cases hc)
  | Except.ok _, Except.error _ => isFalse (fun hc => by cases hc)

/- ===== Message (Packet) model ===== -/

/-- Entry metadata carried by a Stat message: the slash-relative path and the
Go os.FileMode bits. Other stat fields do not influence the protocol core. -/
structure Stat where
  path : String
  mode : Nat
deriving DecidableEq, Repr

/-- Packet.Type discriminator: PACKET_STAT, PACKET_REQ, PACKET_DATA, PACKET_FIN. -/
inductive PacketType
  | stat
  | req
  | data
  | fin
deriving DecidableEq, Repr

/-- A protocol message. Fields a construction site leaves unset take the Go zero
values: id 0, stat nil, data empty. -/
structure Packet where
  type : PacketType := PacketType.stat
  id : Nat := 0
  stat : Option Stat := none
  data : List Nat := []
deriving DecidableEq, Repr

/-- The Stat packet the sender emits for one walked entry (copy.go:115-118); no id
is ever written into a Stat packet. -/
def statPacket (s : Stat) : Packet := { type := PacketType.stat, stat := some s }

/-- The terminating Stat packet with nil metadata (copy.go:129). -/
def statNilPacket : Packet := { type := PacketType.stat }

def reqPacket (id : Nat) : Packet := { type := PacketType.req, id := id }

def dataPacket (id : Nat) (bytes : List Nat) : Packet :=
  { type := PacketType.data, id := id, data := bytes }

def finPacket : Packet := { type := PacketType.fin }

/- ===== Observable sender events ===== -/

/-- Observable actions of the sender: a message handed to SendMsg, or an invocation
of the progress callback with (cumulative byte count, isFinal). -/
inductive Event
  | sent (p : Packet)
  | cb (value : Nat) (isFinal : Bool)
deriving DecidableEq, Repr

def sentOf (evs : List Event) : List Packet :=
  evs.filterMap (fun e => match e with | Event.sent p => some p | Event.cb _ _ => none)

def cbValues (evs : List Event) : List Nat :=
  evs.filterMap (fun e => match e with | Event.cb v _ => some v | Event.sent _ => none)

def cbFinalCount (evs : List Event) : Nat :=
  (evs.filter (fun e => match e with | Event.cb _ true => true | _ => false)).length

/-- The shape of an event, forgetting byte values and progress counts. -/
inductive EvShape
  | cbProgress
  | cbFinal
  | sentStatMeta
  | sentStatNil
  | sentDataChunk
  | sentDataTerm
  | sentFinMsg
  | sentReqMsg
deriving DecidableEq, Repr

def eventShape : Event → EvShape
  | Event.cb _ false => EvShape.cbProgress
  | Event.cb _ true => EvShape.cbFinal
  | Event.sent p =>
    match p.type, p.stat, p.data with
    | PacketType.stat, some _, _ => EvShape.sentStatMeta
    | PacketType.stat, none, _ => EvShape.sentStatNil
    | PacketType.data, _, [] => EvShape.sentDataTerm
    | PacketType.data, _, _ :: _ => EvShape.sentDataChunk
    | PacketType.fin, _, _ => EvShape.sentFinMsg
    | PacketType.req, _, _ => EvShape.sentReqMsg

/- ===== Sender (copy.go:25-147) ===== -/

/-- delete(s.files, id) on the transfer table, modelled as an association list. -/
def deleteFile (files : List (Nat × String)) (id : Nat) : List (Nat × String) :=
  files.filter (fun kv => kv.1 != id)

/-- sender.queue (copy.go:78-91): look the id up in the transfer table; if absent,
fail with "invalid file id"; otherwise remove it and hand (id, path) on to a
content task. -/
def senderQueue (files : List (Nat × String)) (id : Nat) :
    Except String (List (Nat × String) × String) :=
  match files.lookup id with
  | none => Except.error ("invalid file id " ++ toString id)
  | some p => Except.ok (deleteFile files id, p)

/-- What os.Open plus io.CopyBuffer yield inside sender.sendFile: the open can fail,
or the file is read as a sequence of buffer-fulls, with or without a read error
cutting the copy short after those reads. -/
inductive OpenResult
  | openFail
  | copied (chunks : List (List Nat)) (readErr : Bool)
deriving DecidableEq, Repr

/-- fileSender.Write (copy.go:137-147): an empty write sends nothing; otherwise one
Data packet is sent and then the progress callback runs with the packet size
added to the cumulative count. -/
def fileSenderWrite (psize : Packet → Nat) (id : Nat) (cur : Nat) (dt : List Nat) :
    Nat × List Event :=
  if dt.isEmpty then (cur, [])
  else
    let p := dataPacket id dt
    (cur + psize p, [Event.sent p, Event.cb (cur + psize p) false])

/-- io.CopyBuffer driving each read chunk through fileSender.Write. -/
def writeChunks (psize : Packet → Nat) (id : Nat) :
    Nat → List (List Nat) → Nat × List Event
  | cur, [] => (cur, [])
  | cur, c :: rest =>
    let w := fileSenderWrite psize id cur c
    let r := writeChunks psize id w.1 rest
    (r.1, w.2 ++ r.2)

structure FileSendResult where
  progressCurrent : Nat
  events : List Event
  result : Except String Unit
deriving DecidableEq, Repr

/-- sender.sendFile (copy.go:93-103): copy the opened file through fileSender.Write;
a read error is returned at once, before the terminator line; otherwise
(including when the open failed) the zero-length Data terminator for the id is
sent. -/
def sendFile (psize : Packet → Nat) (id : Nat) (r : OpenResult) (cur : Nat) :
    FileSendResult :=
  match r with
  | OpenResult.openFail =>
    ⟨cur, [Event.sent (dataPacket id [])], Except.ok ()⟩
  | OpenResult.copied chunks readErr =>
    let w := writeChunks psize id cur chunks
    if readErr then ⟨w.1, w.2, Except.error ("copy error")⟩
    else ⟨w.1, w.2 ++ [Event.sent (dataPacket id [])], Except.ok ()⟩

structure EmitResult where
  i : Nat
  files : List (Nat × String)
  progressCurrent : Nat
  events : List Event
deriving DecidableEq, Repr

/-- sender.send (copy.go:105-130) from counter i, table files and progress cur: for
each walked entry, record (i, path) in the transfer table, increment i, invoke
the progress callback with the Stat packet's size added, and send the Stat
packet; after the walk, send the terminating nil-metadata Stat, which updates no
progress. -/
def senderSendGo (psize : Packet → Nat) :
    Nat → List (Nat × String) → Nat → List Stat → EmitResult
  | i, files, cur, [] => ⟨i, files, cur, [Event.sent statNilPacket]⟩
  | i, files, cur, e :: rest =>
    let p := statPacket e
    let cur' := cur + psize p
    let r := senderSendGo psize (i + 1) (files ++ [(i, e.path)]) cur' rest
    ⟨r.i, r.files, r.progressCurrent, Event.cb cur' false :: Event.sent p :: r.events⟩

/-- The emission task as sender.run starts it (copy.go:54): counter 0, empty table,
progress 0. -/
def senderSendEmit (psize : Packet → Nat) (entries : List Stat) : EmitResult :=
  senderSendGo psize 0 [] 0 entries

structure SenderRunResult where
  files : List (Nat × String)
  spawned : List (Nat × String)
  progressCurrent : Nat
  events : List Event
  outcome : Option (Except String Unit)
deriving DecidableEq, Repr

/-- sender.run's receive loop (copy.go:56-68), with the content task of a granted
request run inline (a sequential schedule of the spawned goroutine). An input of
none models a RecvMsg error: the body does nothing and the loop retries. A
Request consults sender.queue; an unknown id aborts the run with that error. Fin
is echoed once and ends the run successfully. Stat and Data have no case in the
switch and are ignored. outcome none means the inputs ran out with the loop
still waiting. -/
def senderRunLoop (psize : Packet → Nat) (opens : Nat → OpenResult) :
    List (Nat × String) → Nat → List (Option Packet) → SenderRunResult
  | files, cur, [] => ⟨files, [], cur, [], none⟩
  | files, cur, none :: rest => senderRunLoop psize opens files cur rest
  | files, cur, some p :: rest =>
    match p.type with
    | PacketType.req =>
      (match senderQueue files p.id with
      | Except.error e => ⟨files, [], cur, [], some (Except.error e)⟩
      | Except.ok (files', path) =>
        let f := sendFile psize p.id (opens p.id) cur
        let r := senderRunLoop psize opens files' f.progressCurrent rest
        ⟨r.files, (p.id, path) :: r.spawned, r.progressCurrent,
          f.events ++ r.events, r.outcome⟩)
    | PacketType.fin =>
      ⟨files, [], cur, [Event.sent finPacket], some (Except.ok ())⟩
    | PacketType.stat => senderRunLoop psize opens files cur rest
    | PacketType.data => senderRunLoop psize opens files cur rest

/-- Send (copy.go:25-39) under a sequential schedule: the emission task's events,
then the receive loop's events with content tasks inline, then the deferred
final progress callback (copy.go:55), which adds 0 bytes and passes
isFinal = true when run returns. -/
def sendModelEvents (psize : Packet → Nat) (opens : Nat → OpenResult)
    (entries : List Stat) (inputs : List (Option Packet)) : List Event :=
  let em := senderSendEmit psize entries
  let lp := senderRunLoop psize opens em.files em.progressCurrent inputs
  em.events ++ lp.events ++ [Event.cb lp.progressCurrent true]

/- ===== Receiver (copy.go:161-285) ===== -/

/-- os.ModeDir, os.ModeSymlink, os.ModeDevice, os.ModeNamedPipe: the mask tested at
copy.go:225. -/
def specialModeBits : Nat := (1 <<< 31) ||| (1 <<< 27) ||| (1 <<< 26) ||| (1 <<< 25)

/-- One in-flight content sink: the write end of the io.Pipe registered for an id. -/
structure Sink where
  written : List (List Nat)
  closed : Bool
deriving DecidableEq, Repr

structure RecvState where
  i : Nat
  files : List (String × Nat)
  pipes : List (Nat × Sink)
  forwarded : List String
  finishing : Bool
deriving DecidableEq, Repr

def initRecvState : RecvState := ⟨0, [], [], [], false⟩

/-- Mutation of the sink registered under id in the sink table. -/
def setPipe (pipes : List (Nat × Sink)) (id : Nat) (s : Sink) : List (Nat × Sink) :=
  pipes.map (fun kv => if kv.1 = id then (id, s) else kv)

inductive RecvStep
  | cont (st : RecvState) (statId : Option Nat)
  | done (result : Except String Unit)
deriving DecidableEq, Repr

/-- One iteration of receiver.run's message loop (copy.go:211-255). none models a
RecvMsg error: it is logged and the loop retries with state unchanged. A Stat
with metadata records path -> i in the pending table unless the mode carries
dir/symlink/device/pipe bits, increments i either way, and forwards the path to
the diff task; statId reports the counter value the message was associated
with. The nil-metadata Stat starts the finishing sequence and the loop goes on.
A Data packet must find its sink: an absent sink is fatal; empty data closes
the sink (closing a pipe writer never fails, even twice); writing to an
already-closed pipe fails the run; otherwise the bytes are appended. Req has no
case and is ignored; Fin returns success. -/
def receiverStep (st : RecvState) (input : Option Packet) : RecvStep :=
  match input with
  | none => RecvStep.cont st none
  | some p =>
    match p.type with
    | PacketType.stat =>
      match p.stat with
      | none => RecvStep.cont { st with finishing := true } none
      | some s =>
        let files' := if s.mode &&& specialModeBits = 0
          then st.files ++ [(s.path, st.i)] else st.files
        RecvStep.cont
          { st with
              files := files'
              i := st.i + 1
              forwarded := st.forwarded ++ [s.path] }
          (some st.i)
    | PacketType.data =>
      match st.pipes.lookup p.id with
      | none => RecvStep.done (Except.error ("invalid file request " ++ toString p.id))
      | some sink =>
        if p.data.isEmpty then
          RecvStep.cont
            { st with pipes := setPipe st.pipes p.id { sink with closed := true } } none
        else if sink.closed then
          RecvStep.done (Except.error ("io: read/write on closed pipe"))
        else
          RecvStep.cont
            { st with
                pipes := setPipe st.pipes p.id
                  { sink with written := sink.written ++ [p.data] } }
            none
    | PacketType.fin => RecvStep.done (Except.ok ())
    | PacketType.req => RecvStep.cont st none

structure RecvRunResult where
  st : RecvState
  outcome : Option (Except String Unit)
  statIds : List Nat
deriving DecidableEq, Repr

/-- receiver.run's message loop folded over a list of receive results; statIds
collects, in order, the counter value associated with each Stat-with-metadata
message processed before the loop returned. -/
def receiverRunLoop (st : RecvState) : List (Option Packet) → RecvRunResult
  | [] => ⟨st, none, []⟩
  | input :: rest =>
    match receiverStep st input with
    | RecvStep.done r => ⟨st, some r, []⟩
    | RecvStep.cont st' sid =>
      let r := receiverRunLoop st' rest
      ⟨r.st, r.outcome, sid.toList ++ r.statIds⟩

/-- The callback of receiver.getAsyncDataFunc (copy.go:259-285): consume path -> id
from the pending table (absence is a protocol error), register a fresh open
sink under the id, and send Request with that id. -/
def asyncDataRequest (st : RecvState) (path : String) :
    Except String (RecvState × Packet) :=
  match st.files.lookup path with
  | none => Except.error ("invalid file request " ++ path)
  | some id =>
    Except.ok
      ({ st with
          files := st.files.filter (fun kv => kv.1 != path)
          pipes := st.pipes ++ [(id, ⟨[], false⟩)] },
        reqPacket id)

/- ===== Contexts and Receive (copy.go:161-176) ===== -/

/-- A Go context, reduced to the one observation the core could make of it. -/
structure GoContext where
  cancelled : Bool
deriving DecidableEq, Repr

/-- context.Background(): never cancelled. -/
def backgroundCtx : GoContext := ⟨false⟩

/-- context.WithCancel(parent) before anyone calls the cancel function: the child
observes the parent's state. -/
def withCancel (parent : GoContext) : GoContext := parent

structure ReceiveResult where
  diffCtx : GoContext
  run : RecvRunResult
deriving DecidableEq, Repr

/-- Receive (copy.go:161-176): the internal context is
context.WithCancel(context.Background()) — the ctx parameter is shadowed on the
first line and never consulted again. The internal context is what reaches the
background diff task (copy.go:204); the message loop then runs on the inputs. -/
def Receive (ctx : GoContext) (inputs : List (Option Packet)) : ReceiveResult :=
  let internal := withCancel backgroundCtx
  ⟨internal, receiverRunLoop initRecvState inputs⟩

/- ===== syncStream (copy.go:149-159) ===== -/

/-- Atomic steps a task takes against the shared stream: operations on
syncStream.mu, and the start and end of an underlying SendMsg or RecvMsg call. -/
inductive StreamEvent
  | lock
  | unlock
  | sendStart
  | sendEnd
  | recvStart
  | recvEnd
deriving DecidableEq, Repr

/-- syncStream.SendMsg (copy.go:154-159): mu.Lock(), the underlying SendMsg from
start to end, mu.Unlock(). -/
def syncSendProgram : List StreamEvent :=
  [StreamEvent.lock, StreamEvent.sendStart, StreamEvent.sendEnd, StreamEvent.unlock]

/-- syncStream embeds Stream, so RecvMsg is the underlying receive, passed through
with no locking. -/
def syncRecvProgram : List StreamEvent :=
  [StreamEvent.recvStart, StreamEvent.recvEnd]

/-- Control positions of a task that repeatedly calls syncStream.SendMsg. -/
inductive SendPhase
  | idle
  | locked
  | sending
  | sentMsg
deriving DecidableEq, Repr

def sendPhaseStep : SendPhase → StreamEvent → Option SendPhase
  | SendPhase.idle, StreamEvent.lock => some SendPhase.locked
  | SendPhase.locked, StreamEvent.sendStart => some SendPhase.sending
  | SendPhase.sending, StreamEvent.sendEnd => some SendPhase.sentMsg
  | SendPhase.sentMsg, StreamEvent.unlock => some SendPhase.idle
  | _, _ => none

def sendPhaseRun : SendPhase → List StreamEvent → Option SendPhase
  | s, [] => some s
  | s, e :: rest =>
    match sendPhaseStep s e with
    | none => none
    | some s' => sendPhaseRun s' rest

/-- How many lock acquisitions a task at this control position has not yet
released. -/
def lockBal : SendPhase → Nat
  | SendPhase.idle => 0
  | _ => 1

/-- How many underlying SendMsg calls a task at this control position has started
but not yet ended. -/
def sendBal : SendPhase → Nat
  | SendPhase.sending => 1
  | _ => 0

/-- Mutex semantics of syncStream.mu over an interleaved trace: a lock succeeds
only when the mutex is free, an unlock only by the holder; none marks a trace
the mutex makes impossible. -/
def holderStep (h : Option Nat) (ev : Nat × StreamEvent) : Option (Option Nat) :=
  match ev.2 with
  | StreamEvent.lock =>
    match h with
    | none => some (some ev.1)
    | some _ => none
  | StreamEvent.unlock =>
    match h with
    | some t => if t = ev.1 then some none else none
    | none => none
  | _ => some h

def runHolder (h : Option Nat) : List (Nat × StreamEvent) → Option (Option Nat)
  | [] => some h
  | ev :: rest =>
    match holderStep h ev with
    | none => none
    | some h' => runHolder h' rest

/-- The events task t performed, in order. -/
def proj (t : Nat) (tr : List (Nat × StreamEvent)) : List StreamEvent :=
  (tr.filter (fun ev => ev.1 == t)).map Prod.snd

/-- Task t is inside the underlying SendMsg call: it started one it has not ended. -/
def midSend (l : List StreamEvent) : Prop :=
  l.count StreamEvent.sendStart = l.count StreamEvent.sendEnd + 1

/- ===== Progress accounting predicate ===== -/

/-- The progress values the callbacks in evs report, when the cumulative counter
runs from cur to fin: consecutive reports never decrease and every report is
bracketed by cur and fin. -/
def ProgressBounded (cur : Nat) (evs : List Event) (fin : Nat) : Prop :=
  List.Chain' (fun a b => a ≤ b) (cbValues evs)
  ∧ (∀ v ∈ cbValues evs, cur ≤ v ∧ v ≤ fin)
  ∧ cur ≤ fin

/- ===== Concrete inputs used by witnesses and counterexamples ===== -/

/-- A directory entry: ModeDir plus permission bits 0755. -/
def dirStatC2 : Stat := ⟨"subdir", (1 <<< 31) ||| 493⟩

/-- A regular-file entry: permission bits 0644 only. -/
def fileStatA : Stat := ⟨"a.txt", 420⟩

def oneSizer : Packet → Nat := fun _ => 1

def alwaysOpenFail : Nat → OpenResult := fun _ => OpenResult.openFail

/-- A two-event stream trace: task 0 acquires the send lock and starts its
underlying SendMsg. -/
def witTrace : List (Nat × StreamEvent) :=
  [(0, StreamEvent.lock), (0, StreamEvent.sendStart)]

/-- Whether one receive result carries a Fin packet. -/
def isFinInput (i : Option Packet) : Bool :=
  match i with
  | some q => q.type == PacketType.fin
  | none => false

/- ===== Helper lemmas ===== -/

theorem lookup_deleteFile (files : List (Nat × String)) (id : Nat) :
    (deleteFile files id).lookup id = none := by
  induction files with
  | nil => rfl
  | cons kv rest ih =>
    rcases kv with ⟨k, v⟩
    by_cases h : k = id
    · simpa [deleteFile, List.filter_cons, h] using ih
    · have h2 : (id == k) = false := beq_eq_false_iff_ne.mpr (Ne.symm h)
      have h3 : (k != id) = true := bne_iff_ne.mpr h
      simp only [deleteFile, List.filter_cons] at ih ⊢
      simpa [h3, List.lookup, h2] using ih

theorem receiverRunLoop_cont (st st' : RecvState) (sid : Option Nat)
    (input : Option Packet) (rest : List (Option Packet))
    (hs : receiverStep st input = RecvStep.cont st' sid) :
    receiverRunLoop st (input :: rest)
      = ⟨(receiverRunLoop st' rest).st, (receiverRunLoop st' rest).outcome,
         sid.toList ++ (receiverRunLoop st' rest).statIds⟩ := by
  simp [receiverRunLoop, hs]

theorem receiverRunLoop_done (st : RecvState) (r : Except String Unit)
    (input : Option Packet) (rest : List (Option Packet))
    (hs : receiverStep st input = RecvStep.done r) :
    receiverRunLoop st (input :: rest) = ⟨st, some r, []⟩ := by
  simp [receiverRunLoop, hs]

theorem senderRunLoop_replicate_none (psize : Packet → Nat) (opens : Nat → OpenResult)
    (files : List (Nat × String)) (cur : Nat) (n : Nat) (rest : List (Option Packet)) :
    senderRunLoop psize opens files cur (List.replicate n none ++ rest)
      = senderRunLoop psize opens files cur rest := by
  induction n with
  | zero => rfl
  | succ k ih => rw [List.replicate_succ, List.cons_append]; exact ih

theorem receiverRunLoop_replicate_none (st : RecvState) (n : Nat)
    (rest : List (Option Packet)) :
    receiverRunLoop st (List.replicate n none ++ rest) = receiverRunLoop st rest := by
  induction n with
  | zero => rfl
  | succ k ih => rw [List.replicate_succ, List.cons_append]; exact ih

theorem senderRunLoop_ok_has_fin (psize : Packet → Nat) (opens : Nat → OpenResult) :
    ∀ (inputs : List (Option Packet)) (files : List (Nat × String)) (cur : Nat),
    (senderRunLoop psize opens files cur inputs).outcome = some (Except.ok ()) →
    inputs.any isFinInput = true := by
  intro inputs
  induction inputs with
  | nil => intro files cur h; simp [senderRunLoop] at h
  | cons input rest ih =>
    intro files cur h
    match input with
    | none =>
      have := ih files cur h
      simp [List.any_cons, isFinInput, this]
    | some p =>
      rcases p with ⟨ptype, pid, pstat, pdata⟩
      cases ptype with
      | fin => simp [List.any_cons, isFinInput]
      | stat =>
        have := ih files cur h
        simp [List.any_cons, isFinInput, this]
      | data =>
        have := ih files cur h
        simp [List.any_cons, isFinInput, this]
      | req =>
        simp only [senderRunLoop] at h
        cases hq : senderQueue files pid with
        | error e => rw [hq] at h; simp at h
        | ok pr =>
          rw [hq] at h
          simp only [] at h
          have := ih pr.1 (sendFile psize pid (opens pid) cur).progressCurrent h
          simp [List.any_cons, isFinInput, this]

theorem receiverRunLoop_ok_has_fin :
    ∀ (inputs : List (Option Packet)) (st : RecvState),
    (receiverRunLoop st inputs).outcome = some (Except.ok ()) →
    inputs.any isFinInput = true := by
  intro inputs
  induction inputs with
  | nil => intro st h; simp [receiverRunLoop] at h
  | cons input rest ih =>
    intro st h
    match input with
    | none =>
      have := ih st h
      simp [List.any_cons, isFinInput, this]
    | some p =>
      rcases p with ⟨ptype, pid, pstat, pdata⟩
      cases ptype with
      | fin => simp [List.any_cons, isFinInput]
      | req =>
        have := ih st h
        simp [List.any_cons, isFinInput, this]
      | stat =>
        cases pstat with
        | none =>
          have := ih { st with finishing := true } h
          simp [List.any_cons, isFinInput, this]
        | some s =>
          simp only [receiverRunLoop, receiverStep] at h
          have := ih _ h
          simp [List.any_cons, isFinInput, this]
      | data =>
        cases hl : st.pipes.lookup pid with
        | none =>
          have hs : receiverStep st (some ⟨PacketType.data, pid, pstat, pdata⟩)
              = RecvStep.done (Except.error ("invalid file request " ++ toString pid)) := by
            simp [receiverStep, hl]
          rw [receiverRunLoop_done _ _ _ _ hs] at h
          simp at h
        | some sink =>
          by_cases hempty : pdata.isEmpty
          · have hs : receiverStep st (some ⟨PacketType.data, pid, pstat, pdata⟩)
                = RecvStep.cont
                    { st with pipes := setPipe st.pipes pid { sink with closed := true } }
                    none := by
              simp [receiverStep, hl, hempty]
            rw [receiverRunLoop_cont _ _ _ _ _ hs] at h
            have := ih _ h
            simp [List.any_cons, isFinInput, this]
          · by_cases hcl : sink.closed
            · have hs : receiverStep st (some ⟨PacketType.data, pid, pstat, pdata⟩)
                  = RecvStep.done (Except.error ("io: read/write on closed pipe")) := by
                simp [receiverStep, hl, hempty, hcl]
              rw [receiverRunLoop_done _ _ _ _ hs] at h
              simp at h
            · have hs : receiverStep st (some ⟨PacketType.data, pid, pstat, pdata⟩)
                  = RecvStep.cont
                      { st with pipes := setPipe st.pipes pid { sink with written := sink.written ++ [pdata] } }
                      none := by
                simp [receiverStep, hl, hempty, hcl]
              rw [receiverRunLoop_cont _ _ _ _ _ hs] at h
              have := ih _ h
              simp [List.any_cons, isFinInput, this]

/- ===== Claim theorems ===== -/

/-- C1: if the sender receives a Request whose id is not in the transfer table
(never announced, or already consumed by an earlier Request for the same id),
Send's loop returns the "invalid file id" error and the exchange terminates. -/
theorem req_unknown_id_fatal (psize : Packet → Nat) (opens : Nat → OpenResult)
    (files : List (Nat × String)) (cur : Nat) (id : Nat) (rest : List (Option Packet)) :
    (files.lookup id = none →
      (senderRunLoop psize opens files cur (some (reqPacket id) :: rest)).outcome
        = some (Except.error ("invalid file id " ++ toString id)))
    ∧ (∀ path, files.lookup id = some path →
      (senderRunLoop psize opens files cur
          (some (reqPacket id) :: some (reqPacket id) :: rest)).outcome
        = some (Except.error ("invalid file id " ++ toString id))) := by
  constructor
  · intro h
    simp [senderRunLoop, senderQueue, reqPacket, h]
  · intro path h
    simp [senderRunLoop, senderQueue, reqPacket, h, lookup_deleteFile]

theorem req_unknown_id_fatal_wit :
    ((senderRunLoop oneSizer alwaysOpenFail [(1, "a")] 0 [some (reqPacket 0)]).outcome
        = some (Except.error ("invalid file id " ++ toString 0)))
    ∧ ((senderRunLoop oneSizer alwaysOpenFail [(0, "a")] 0
          [some (reqPacket 0), some (reqPacket 0)]).outcome
        = some (Except.error ("invalid file id " ++ toString 0))) :=
  ⟨(req_unknown_id_fatal oneSizer alwaysOpenFail [(1, "a")] 0 0 []).1 rfl,
   (req_unknown_id_fatal oneSizer alwaysOpenFail [(0, "a")] 0 0 []).2 ("a") rfl⟩

/-- C6: neither message loop ends because of a RecvMsg error: the sender treats a
failed receive as no message this iteration and retries, the receiver logs it
and keeps waiting, and any number of consecutive receive failures alone leaves
both Send and Receive still running (outcome none). -/
theorem recv_error_never_terminates (psize : Packet → Nat) (opens : Nat → OpenResult)
    (files : List (Nat × String)) (cur : Nat) (st : RecvState)
    (rest : List (Option Packet)) (n : Nat) :
    (senderRunLoop psize opens files cur (none :: rest)
        = senderRunLoop psize opens files cur rest)
    ∧ (receiverRunLoop st (none :: rest) = receiverRunLoop st rest)
    ∧ (senderRunLoop psize opens files cur (List.replicate n none ++ rest)
        = senderRunLoop psize opens files cur rest)
    ∧ (receiverRunLoop st (List.replicate n none ++ rest) = receiverRunLoop st rest)
    ∧ (senderRunLoop psize opens files cur (List.replicate n none)).outcome = none
    ∧ (receiverRunLoop st (List.replicate n none)).outcome = none := by
  refine ⟨rfl, rfl, senderRunLoop_replicate_none psize opens files cur n rest,
    receiverRunLoop_replicate_none st n rest, ?_, ?_⟩
  · have h := senderRunLoop_replicate_none psize opens files cur n []
    rw [List.append_nil] at h
    rw [h]
    rfl
  · have h := receiverRunLoop_replicate_none st n []
    rw [List.append_nil] at h
    rw [h]
    rfl

/-- C7: on a Fin message the sender sends exactly one Fin back and returns
successfully, the receiver returns successfully at once from any state, and in
both loops a normal (ok) return can only have been caused by a Fin input. -/
theorem fin_ends_loops (psize : Packet → Nat) (opens : Nat → OpenResult)
    (files : List (Nat × String)) (cur : Nat) (st : RecvState) (p : Packet)
    (rest inputs : List (Option Packet)) :
    (p.type = PacketType.fin →
      senderRunLoop psize opens files cur (some p :: rest)
        = ⟨files, [], cur, [Event.sent finPacket], some (Except.ok ())⟩)
    ∧ (p.type = PacketType.fin →
      receiverRunLoop st (some p :: rest) = ⟨st, some (Except.ok ()), []⟩)
    ∧ ((senderRunLoop psize opens files cur inputs).outcome = some (Except.ok ()) →
      inputs.any isFinInput = true)
    ∧ ((receiverRunLoop st inputs).outcome = some (Except.ok ()) →
      inputs.any isFinInput = true) := by
  refine ⟨?_, ?_, senderRunLoop_ok_has_fin psize opens inputs files cur,
    receiverRunLoop_ok_has_fin inputs st⟩
  · intro h
    rcases p with ⟨ptype, pid, pstat, pdata⟩
    cases h
    rfl
  · intro h
    rcases p with ⟨ptype, pid, pstat, pdata⟩
    cases h
    rfl

theorem fin_ends_loops_wit :
    (senderRunLoop oneSizer alwaysOpenFail [] 0 [some finPacket]
        = ⟨[], [], 0, [Event.sent finPacket], some (Except.ok ())⟩)
    ∧ (receiverRunLoop initRecvState [some finPacket]
        = ⟨initRecvState, some (Except.ok ()), []⟩)
    ∧ ([some finPacket].any isFinInput = true) :=
  ⟨(fin_ends_loops oneSizer alwaysOpenFail [] 0 initRecvState finPacket [] [some finPacket]).1 rfl,
   (fin_ends_loops oneSizer alwaysOpenFail [] 0 initRecvState finPacket [] [some finPacket]).2.1 rfl,
   (fin_ends_loops oneSizer alwaysOpenFail [] 0 initRecvState finPacket []
      [some finPacket]).2.2.1 (by decide)⟩

/-- C10: Receive's behaviour does not depend on its ctx argument: the internal
context is derived from context.Background(), so any two caller contexts —
including an already-cancelled one — produce identical runs, and the context
reaching the background diff task is never the caller's. -/
theorem receive_ignores_ctx (ctx₁ ctx₂ : GoContext) (inputs : List (Option Packet)) :
    (Receive ctx₁ inputs = Receive ctx₂ inputs)
    ∧ (Receive ctx₁ inputs).diffCtx = withCancel backgroundCtx
    ∧ (Receive ctx₁ inputs).diffCtx.cancelled = false
    ∧ Receive ⟨true⟩ inputs = Receive ⟨false⟩ inputs :=
  ⟨rfl, rfl, rfl, rfl⟩

/- ===== Helper lemmas for the event stream ===== -/

theorem sentOf_append (a b : List Event) : sentOf (a ++ b) = sentOf a ++ sentOf b := by
  simp [sentOf, List.filterMap_append]

theorem cbValues_append (a b : List Event) : cbValues (a ++ b) = cbValues a ++ cbValues b := by
  simp [cbValues, List.filterMap_append]

theorem writeChunks_sent (psize : Packet → Nat) (id : Nat) :
    ∀ (chunks : List (List Nat)) (cur : Nat),
    sentOf (writeChunks psize id cur chunks).2
      = (chunks.filter (fun c => !c.isEmpty)).map (dataPacket id) := by
  intro chunks
  induction chunks with
  | nil => intro cur; rfl
  | cons c rest ih =>
    intro cur
    by_cases hc : c.isEmpty
    · simp only [writeChunks, fileSenderWrite, hc, if_true, List.filter_cons]
      simpa [Bool.not_eq_true', hc] using ih cur
    · simp only [writeChunks, fileSenderWrite, hc, if_false, List.filter_cons]
      rw [sentOf_append]
      simpa [sentOf, Bool.not_eq_true', hc] using ih (cur + psize (dataPacket id c))

theorem senderSendGo_files (psize : Packet → Nat) :
    ∀ (entries : List Stat) (i : Nat) (files : List (Nat × String)) (cur : Nat),
    (senderSendGo psize i files cur entries).files
      = files ++ (List.range' i entries.length).zip (entries.map Stat.path) := by
  intro entries
  induction entries with
  | nil => intro i files cur; simp [senderSendGo]
  | cons e rest ih =>
    intro i files cur
    simp only [senderSendGo]
    rw [ih]
    simp [List.range'_succ, List.zip_cons_cons, List.append_assoc]

theorem senderSendGo_ids_zero (psize : Packet → Nat) :
    ∀ (entries : List Stat) (i : Nat) (files : List (Nat × String)) (cur : Nat),
    (sentOf (senderSendGo psize i files cur entries).events).all
      (fun p => p.id == 0) = true := by
  intro entries
  induction entries with
  | nil => intro i files cur; rfl
  | cons e rest ih =>
    intro i files cur
    simp only [senderSendGo]
    have hrest := ih (i + 1) (files ++ [(i, e.path)]) (cur + psize (statPacket e))
    simpa [sentOf, statPacket, List.all_cons] using hrest

theorem receiver_statIds (entries : List Stat) :
    ∀ st : RecvState,
    (receiverRunLoop st (entries.map (fun e => some (statPacket e)))).statIds
      = List.range' st.i entries.length := by
  induction entries with
  | nil => intro st; rfl
  | cons e rest ih =>
    intro st
    have hs : receiverStep st (some (statPacket e))
        = RecvStep.cont
            { st with
                files := if e.mode &&& specialModeBits = 0
                  then st.files ++ [(e.path, st.i)] else st.files
                i := st.i + 1
                forwarded := st.forwarded ++ [e.path] }
            (some st.i) := rfl
    rw [List.map_cons, receiverRunLoop_cont _ _ _ _ _ hs]
    simp [ih, List.range'_succ]

/- ===== C2, C3, C4, C5 ===== -/

/-- C2 counterexample: the sender's emission task does record a directory entry in
the transfer table. After walking the single entry dirStatC2, whose mode has
ModeDir set, the table maps id 0 to its path — the claim says ids of
directories are never inserted. -/
theorem dir_in_transfer_table_cex :
    dirStatC2.mode &&& specialModeBits ≠ 0
    ∧ (senderSendEmit oneSizer [dirStatC2]).files.lookup 0 = some ("subdir")
    ∧ ¬((senderSendEmit oneSizer [dirStatC2]).files.lookup 0 = none) :=
  ⟨by decide, rfl, by decide⟩

/-- C2 (amended): every walked entry, of any file type, is assigned the next
sequential id starting at 0 and recorded with its path in the sender's transfer
table; the regular-file-only filtering happens in the receiver's pending-request
table, which skips entries whose mode carries dir/symlink/device/pipe bits while
still consuming an id for them. -/
theorem transfer_table_records_all (psize : Packet → Nat) (entries : List Stat)
    (st : RecvState) (s : Stat) :
    ((senderSendEmit psize entries).files
        = (List.range entries.length).zip (entries.map Stat.path))
    ∧ (s.mode &&& specialModeBits ≠ 0 →
      receiverStep st (some (statPacket s))
        = RecvStep.cont { st with i := st.i + 1, forwarded := st.forwarded ++ [s.path] } (some st.i))
    ∧ (s.mode &&& specialModeBits = 0 →
      receiverStep st (some (statPacket s))
        = RecvStep.cont { st with files := st.files ++ [(s.path, st.i)], i := st.i + 1, forwarded := st.forwarded ++ [s.path] } (some st.i)) := by
  refine ⟨?_, ?_, ?_⟩
  · have h := senderSendGo_files psize entries 0 [] 0
    rw [List.range_eq_range']
    simpa [senderSendEmit] using h
  · intro h
    simp [receiverStep, statPacket, h]
  · intro h
    simp [receiverStep, statPacket, h]

theorem transfer_table_records_all_wit :
    (receiverStep initRecvState (some (statPacket dirStatC2))
        = RecvStep.cont { initRecvState with i := 1, forwarded := ["subdir"] } (some 0))
    ∧ (receiverStep initRecvState (some (statPacket fileStatA))
        = RecvStep.cont { initRecvState with files := [("a.txt", 0)], i := 1, forwarded := ["a.txt"] } (some 0)) :=
  ⟨(transfer_table_records_all oneSizer [] initRecvState dirStatC2).2.1 (by decide),
   (transfer_table_records_all oneSizer [] initRecvState fileStatA).2.2 (by decide)⟩

/-- C3: the messages a content task sends for an id: when the open succeeded and
the copy completed, one non-empty Data packet per non-empty buffer read, in
order, followed by exactly one zero-length Data packet which is the last one;
when the open failed, the zero-length terminator alone. -/
theorem content_task_stream (psize : Packet → Nat) (id : Nat)
    (chunks : List (List Nat)) (cur : Nat) :
    (sentOf (sendFile psize id (OpenResult.copied chunks false) cur).events
        = (chunks.filter (fun c => !c.isEmpty)).map (dataPacket id) ++ [dataPacket id []])
    ∧ ((sentOf (sendFile psize id (OpenResult.copied chunks false) cur).events).getLast?
        = some (dataPacket id []))
    ∧ ((sentOf (sendFile psize id (OpenResult.copied chunks false) cur).events).dropLast.all
        (fun p => p.type == PacketType.data && p.id == id && !p.data.isEmpty) = true)
    ∧ (((sentOf (sendFile psize id (OpenResult.copied chunks false) cur).events).filter
        (fun p => p.data.isEmpty)).length = 1)
    ∧ (sentOf (sendFile psize id OpenResult.openFail cur).events = [dataPacket id []]) := by
  have hkey : sentOf (sendFile psize id (OpenResult.copied chunks false) cur).events
      = (chunks.filter (fun c => !c.isEmpty)).map (dataPacket id) ++ [dataPacket id []] := by
    simp only [sendFile, Bool.false_eq_true, if_false]
    rw [sentOf_append, writeChunks_sent]
    rfl
  refine ⟨hkey, ?_, ?_, ?_, rfl⟩
  · rw [hkey, List.getLast?_concat]
  · rw [hkey, List.dropLast_concat, List.all_eq_true]
    intro p hp
    obtain ⟨c, hc, rfl⟩ := List.mem_map.mp hp
    have hcf := List.mem_filter.mp hc
    simp only [dataPacket]
    simp [hcf.2]
  · rw [hkey, List.filter_append]
    have hnil : ((chunks.filter (fun c => !c.isEmpty)).map (dataPacket id)).filter
        (fun p => p.data.isEmpty) = [] := by
      rw [List.filter_eq_nil_iff]
      intro p hp
      obtain ⟨c, hc, rfl⟩ := List.mem_map.mp hp
      have hcf := List.mem_filter.mp hc
      simp only [dataPacket]
      simp only [Bool.not_eq_true'] at hcf
      simp [hcf.2]
    rw [hnil]
    rfl

/-- C4: in the receiver's loop, a Data message whose id has no sink registered in
the in-flight sink table returns an error, fatal to the exchange; when an open
sink exists, empty bytes close it and non-empty bytes are written to it. -/
theorem data_sink_routing (st : RecvState) (id : Nat) (bytes : List Nat)
    (sink : Sink) (rest : List (Option Packet)) :
    (st.pipes.lookup id = none →
      receiverStep st (some (dataPacket id bytes))
        = RecvStep.done (Except.error ("invalid file request " ++ toString id)))
    ∧ (st.pipes.lookup id = none →
      (receiverRunLoop st (some (dataPacket id bytes) :: rest)).outcome
        = some (Except.error ("invalid file request " ++ toString id)))
    ∧ (st.pipes.lookup id = some sink →
      receiverStep st (some (dataPacket id []))
        = RecvStep.cont { st with pipes := setPipe st.pipes id { sink with closed := true } } none)
    ∧ (st.pipes.lookup id = some sink → sink.closed = false → bytes ≠ [] →
      receiverStep st (some (dataPacket id bytes))
        = RecvStep.cont { st with pipes := setPipe st.pipes id { sink with written := sink.written ++ [bytes] } } none) := by
  refine ⟨?_, ?_, ?_, ?_⟩
  · intro h
    simp [receiverStep, dataPacket, h]
  · intro h
    have hs : receiverStep st (some (dataPacket id bytes))
        = RecvStep.done (Except.error ("invalid file request " ++ toString id)) := by
      simp [receiverStep, dataPacket, h]
    rw [receiverRunLoop_done _ _ _ _ hs]
  · intro h
    simp [receiverStep, dataPacket, h]
  · intro h hcl hne
    have he : bytes.isEmpty = false := by
      cases bytes with
      | nil => exact absurd rfl hne
      | cons a l => rfl
    simp [receiverStep, dataPacket, h, he, hcl]

theorem data_sink_routing_wit :
    (receiverRunLoop initRecvState [some (dataPacket 0 [7])]).outcome
        = some (Except.error ("invalid file request " ++ toString 0))
    ∧ (receiverStep { initRecvState with pipes := [(5, ⟨[], false⟩)] } (some (dataPacket 5 []))
        = RecvStep.cont { initRecvState with pipes := [(5, ⟨[], true⟩)] } none)
    ∧ (receiverStep { initRecvState with pipes := [(5, ⟨[], false⟩)] } (some (dataPacket 5 [7]))
        = RecvStep.cont { initRecvState with pipes := [(5, ⟨[[7]], false⟩)] } none) :=
  ⟨(data_sink_routing initRecvState 0 [7] ⟨[], false⟩ []).2.1 rfl,
   (data_sink_routing { initRecvState with pipes := [(5, ⟨[], false⟩)] } 5 [] ⟨[], false⟩ []).2.2.1 rfl,
   (data_sink_routing { initRecvState with pipes := [(5, ⟨[], false⟩)] } 5 [7] ⟨[], false⟩ []).2.2.2 rfl rfl (by decide)⟩

/-- C5: both sides number the announced entries identically: the sender's transfer
table keys are exactly 0, 1, ... in walk order, the receiver associates the n-th
Stat-with-metadata message it processes with its own counter value n, the two
sequences coincide, and no Stat packet the sender emits carries an id (every id
field it sends during emission is 0). -/
theorem implicit_ids_agree (psize : Packet → Nat) (entries : List Stat) :
    ((receiverRunLoop initRecvState (entries.map (fun e => some (statPacket e)))).statIds
        = (senderSendEmit psize entries).files.map Prod.fst)
    ∧ ((senderSendEmit psize entries).files.map Prod.fst = List.range entries.length)
    ∧ ((receiverRunLoop initRecvState (entries.map (fun e => some (statPacket e)))).statIds
        = List.range entries.length)
    ∧ ((sentOf (senderSendEmit psize entries).events).all (fun p => p.id == 0) = true) := by
  have hf : (senderSendEmit psize entries).files.map Prod.fst = List.range entries.length := by
    have h := senderSendGo_files psize entries 0 [] 0
    rw [List.range_eq_range']
    have hlen : (List.range' 0 entries.length).length ≤ (entries.map Stat.path).length := by
      simp
    calc (senderSendEmit psize entries).files.map Prod.fst
        = ((List.range' 0 entries.length).zip (entries.map Stat.path)).map Prod.fst := by
          rw [senderSendEmit, h]; rfl
      _ = List.range' 0 entries.length := List.map_fst_zip _ _ hlen
  have hr : (receiverRunLoop initRecvState
      (entries.map (fun e => some (statPacket e)))).statIds = List.range entries.length := by
    rw [receiver_statIds entries initRecvState, List.range_eq_range']
    rfl
  exact ⟨hr.trans hf.symm, hf, hr, senderSendGo_ids_zero psize entries 0 [] 0⟩

/- ===== Helper lemmas for progress accounting (C8) ===== -/

theorem mem_of_mem_getLastOpt {l : List Nat} {x : Nat} (h : x ∈ l.getLast?) : x ∈ l := by
  obtain ⟨hne, hx⟩ := List.mem_getLast?_eq_getLast h
  subst hx
  exact List.getLast_mem hne

theorem mem_of_mem_headOpt {l : List Nat} {x : Nat} (h : x ∈ l.head?) : x ∈ l := by
  rw [List.eq_cons_of_mem_head? h]
  exact List.mem_cons_self x _

theorem pb_nil (c : Nat) : ProgressBounded c [] c :=
  ⟨List.chain'_nil, by intro v hv; simp [cbValues] at hv, le_refl c⟩

theorem pb_sent (c : Nat) (p : Packet) : ProgressBounded c [Event.sent p] c := by
  refine ⟨?_, ?_, le_refl c⟩
  · simp [cbValues]
  · intro v hv
    simp [cbValues] at hv

theorem pb_cb (c v : Nat) (b : Bool) (h : c ≤ v) : ProgressBounded c [Event.cb v b] v := by
  refine ⟨?_, ?_, h⟩
  · simp [cbValues]
  · intro x hx
    simp [cbValues] at hx
    subst hx
    exact ⟨h, le_refl _⟩

theorem pb_append {c1 c2 c3 : Nat} {e1 e2 : List Event}
    (h1 : ProgressBounded c1 e1 c2) (h2 : ProgressBounded c2 e2 c3) :
    ProgressBounded c1 (e1 ++ e2) c3 := by
  obtain ⟨ch1, bd1, le1⟩ := h1
  obtain ⟨ch2, bd2, le2⟩ := h2
  refine ⟨?_, ?_, le1.trans le2⟩
  · rw [cbValues_append]
    refine List.Chain'.append ch1 ch2 ?_
    intro x hx y hy
    exact le_trans (bd1 x (mem_of_mem_getLastOpt hx)).2 (bd2 y (mem_of_mem_headOpt hy)).1
  · rw [cbValues_append]
    intro v hv
    rcases List.mem_append.mp hv with h | h
    · exact ⟨(bd1 v h).1, le_trans (bd1 v h).2 le2⟩
    · exact ⟨le_trans le1 (bd2 v h).1, (bd2 v h).2⟩

theorem writeChunks_pb (psize : Packet → Nat) (id : Nat) :
    ∀ (chunks : List (List Nat)) (cur : Nat),
    ProgressBounded cur (writeChunks psize id cur chunks).2
      (writeChunks psize id cur chunks).1 := by
  intro chunks
  induction chunks with
  | nil => intro cur; exact pb_nil cur
  | cons c rest ih =>
    intro cur
    by_cases hc : c.isEmpty
    · simpa [writeChunks, fileSenderWrite, hc] using ih cur
    · have step : ProgressBounded cur
          [Event.sent (dataPacket id c), Event.cb (cur + psize (dataPacket id c)) false]
          (cur + psize (dataPacket id c)) := by
        have := pb_append (pb_sent cur (dataPacket id c))
          (pb_cb cur (cur + psize (dataPacket id c)) false (Nat.le_add_right _ _))
        simpa using this
      have h2 := ih (cur + psize (dataPacket id c))
      simpa [writeChunks, fileSenderWrite, hc] using pb_append step h2

theorem sendFile_pb (psize : Packet → Nat) (id : Nat) (r : OpenResult) (cur : Nat) :
    ProgressBounded cur (sendFile psize id r cur).events
      (sendFile psize id r cur).progressCurrent := by
  cases r with
  | openFail => exact pb_sent cur (dataPacket id [])
  | copied chunks readErr =>
    cases readErr with
    | true => simpa [sendFile] using writeChunks_pb psize id chunks cur
    | false =>
      simpa [sendFile] using
        pb_append (writeChunks_pb psize id chunks cur)
          (pb_sent (writeChunks psize id cur chunks).1 (dataPacket id []))

theorem senderSendGo_pb (psize : Packet → Nat) :
    ∀ (entries : List Stat) (i : Nat) (files : List (Nat × String)) (cur : Nat),
    ProgressBounded cur (senderSendGo psize i files cur entries).events
      (senderSendGo psize i files cur entries).progressCurrent := by
  intro entries
  induction entries with
  | nil => intro i files cur; exact pb_sent cur statNilPacket
  | cons e rest ih =>
    intro i files cur
    have step : ProgressBounded cur
        [Event.cb (cur + psize (statPacket e)) false, Event.sent (statPacket e)]
        (cur + psize (statPacket e)) := by
      have := pb_append
        (pb_cb cur (cur + psize (statPacket e)) false (Nat.le_add_right _ _))
        (pb_sent (cur + psize (statPacket e)) (statPacket e))
      simpa using this
    have h2 := ih (i + 1) (files ++ [(i, e.path)]) (cur + psize (statPacket e))
    simpa [senderSendGo] using pb_append step h2

theorem senderRunLoop_pb (psize : Packet → Nat) (opens : Nat → OpenResult) :
    ∀ (inputs : List (Option Packet)) (files : List (Nat × String)) (cur : Nat),
    ProgressBounded cur (senderRunLoop psize opens files cur inputs).events
      (senderRunLoop psize opens files cur inputs).progressCurrent := by
  intro inputs
  induction inputs with
  | nil => intro files cur; exact pb_nil cur
  | cons input rest ih =>
    intro files cur
    match input with
    | none => exact ih files cur
    | some p =>
      rcases p with ⟨ptype, pid, pstat, pdata⟩
      cases ptype with
      | fin => exact pb_sent cur finPacket
      | stat => exact ih files cur
      | data => exact ih files cur
      | req =>
        cases hq : senderQueue files pid with
        | error e =>
          simp only [senderRunLoop, hq]
          exact pb_nil cur
        | ok pr =>
          simp only [senderRunLoop, hq]
          exact pb_append (sendFile_pb psize pid (opens pid) cur)
            (ih pr.1 (sendFile psize pid (opens pid) cur).progressCurrent)

/-- The cumulative counts reported over one whole modelled Send are bounded and
non-decreasing. -/
theorem sendModel_pb (psize : Packet → Nat) (opens : Nat → OpenResult)
    (entries : List Stat) (inputs : List (Option Packet)) :
    ProgressBounded 0 (sendModelEvents psize opens entries inputs)
      (senderRunLoop psize opens (senderSendEmit psize entries).files
        (senderSendEmit psize entries).progressCurrent inputs).progressCurrent := by
  have h1 := senderSendGo_pb psize entries 0 [] 0
  have h2 := senderRunLoop_pb psize opens inputs (senderSendEmit psize entries).files
    (senderSendEmit psize entries).progressCurrent
  have h3 := pb_cb (senderRunLoop psize opens (senderSendEmit psize entries).files
      (senderSendEmit psize entries).progressCurrent inputs).progressCurrent
    (senderRunLoop psize opens (senderSendEmit psize entries).files
      (senderSendEmit psize entries).progressCurrent inputs).progressCurrent true (le_refl _)
  simpa [sendModelEvents, senderSendEmit] using pb_append (pb_append h1 h2) h3

/- ===== Shape lemmas (C8) ===== -/

theorem cbFinalCount_append (a b : List Event) :
    cbFinalCount (a ++ b) = cbFinalCount a + cbFinalCount b := by
  simp [cbFinalCount, List.filter_append]

theorem writeChunks_cbFinal (psize : Packet → Nat) (id : Nat) :
    ∀ (chunks : List (List Nat)) (cur : Nat),
    cbFinalCount (writeChunks psize id cur chunks).2 = 0 := by
  intro chunks
  induction chunks with
  | nil => intro cur; rfl
  | cons c rest ih =>
    intro cur
    by_cases hc : c.isEmpty
    · simpa [writeChunks, fileSenderWrite, hc] using ih cur
    · rw [writeChunks]
      simp only [fileSenderWrite, hc, if_false]
      rw [cbFinalCount_append]
      rw [ih]
      rfl

theorem sendFile_cbFinal (psize : Packet → Nat) (id : Nat) (r : OpenResult) (cur : Nat) :
    cbFinalCount (sendFile psize id r cur).events = 0 := by
  cases r with
  | openFail => rfl
  | copied chunks readErr =>
    cases readErr with
    | true => simpa [sendFile] using writeChunks_cbFinal psize id chunks cur
    | false =>
      simp only [sendFile, Bool.false_eq_true, if_false]
      rw [cbFinalCount_append, writeChunks_cbFinal]
      rfl

theorem senderSendGo_cbFinal (psize : Packet → Nat) :
    ∀ (entries : List Stat) (i : Nat) (files : List (Nat × String)) (cur : Nat),
    cbFinalCount (senderSendGo psize i files cur entries).events = 0 := by
  intro entries
  induction entries with
  | nil => intro i files cur; rfl
  | cons e rest ih =>
    intro i files cur
    simpa [senderSendGo, cbFinalCount] using ih (i + 1) (files ++ [(i, e.path)])
      (cur + psize (statPacket e))

theorem senderRunLoop_cbFinal (psize : Packet → Nat) (opens : Nat → OpenResult) :
    ∀ (inputs : List (Option Packet)) (files : List (Nat × String)) (cur : Nat),
    cbFinalCount (senderRunLoop psize opens files cur inputs).events = 0 := by
  intro inputs
  induction inputs with
  | nil => intro files cur; rfl
  | cons input rest ih =>
    intro files cur
    match input with
    | none => exact ih files cur
    | some p =>
      rcases p with ⟨ptype, pid, pstat, pdata⟩
      cases ptype with
      | fin => rfl
      | stat => exact ih files cur
      | data => exact ih files cur
      | req =>
        cases hq : senderQueue files pid with
        | error e => simp only [senderRunLoop, hq]; rfl
        | ok pr =>
          simp only [senderRunLoop, hq]
          rw [cbFinalCount_append, sendFile_cbFinal]
          simpa using ih pr.1 (sendFile psize pid (opens pid) cur).progressCurrent

theorem senderSendGo_shapes (psize : Packet → Nat) :
    ∀ (entries : List Stat) (i : Nat) (files : List (Nat × String)) (cur : Nat),
    (senderSendGo psize i files cur entries).events.map eventShape
      = List.flatten (List.replicate entries.length
          [EvShape.cbProgress, EvShape.sentStatMeta]) ++ [EvShape.sentStatNil] := by
  intro entries
  induction entries with
  | nil => intro i files cur; rfl
  | cons e rest ih =>
    intro i files cur
    have hrest := ih (i + 1) (files ++ [(i, e.path)]) (cur + psize (statPacket e))
    simp only [senderSendGo, List.map_cons, List.length_cons, List.replicate_succ,
      List.flatten_cons, List.append_assoc, List.cons_append, List.nil_append]
    rw [hrest]
    rfl

theorem writeChunks_shapes (psize : Packet → Nat) (id : Nat) :
    ∀ (chunks : List (List Nat)) (cur : Nat),
    (writeChunks psize id cur chunks).2.map eventShape
      = List.flatten ((chunks.filter (fun c => !c.isEmpty)).map
          (fun _ => [EvShape.sentDataChunk, EvShape.cbProgress])) := by
  intro chunks
  induction chunks with
  | nil => intro cur; rfl
  | cons c rest ih =>
    intro cur
    by_cases hc : c.isEmpty
    · simpa [writeChunks, fileSenderWrite, hc, List.filter_cons] using ih cur
    · have hshape : eventShape (Event.sent (dataPacket id c)) = EvShape.sentDataChunk := by
        cases c with
        | nil => simp [List.isEmpty] at hc
        | cons a l => rfl
      have hw : fileSenderWrite psize id cur c
          = (cur + psize (dataPacket id c),
             [Event.sent (dataPacket id c), Event.cb (cur + psize (dataPacket id c)) false]) := by
        simp [fileSenderWrite, hc]
      have hfil : List.filter (fun c => !c.isEmpty) (c :: rest)
          = c :: List.filter (fun c => !c.isEmpty) rest := by
        simp [List.filter_cons, hc]
      rw [writeChunks, hw, hfil]
      simp only [List.map_cons, List.flatten_cons, List.map_append]
      rw [ih (cur + psize (dataPacket id c))]
      cases c with
      | nil => exact absurd rfl hc
      | cons a l => simp [eventShape, dataPacket]

/- ===== C8 ===== -/

/-- C8 counterexample: with no walked entries and a receiver that sends Fin at
once, the modelled Send emits two messages (the terminating Stat and the Fin
echo) but the progress callback runs exactly once — the final isFinal = true
invocation — not once per emitted message plus once more as the claim states;
in particular the emission task sends its terminating Stat with no callback at
all. -/
theorem progress_per_message_cex :
    ((sentOf (sendModelEvents oneSizer alwaysOpenFail [] [some finPacket])).length = 2)
    ∧ ((cbValues (sendModelEvents oneSizer alwaysOpenFail [] [some finPacket])).length = 1)
    ∧ ¬((cbValues (sendModelEvents oneSizer alwaysOpenFail [] [some finPacket])).length
        = (sentOf (sendModelEvents oneSizer alwaysOpenFail [] [some finPacket])).length + 1)
    ∧ ((senderSendEmit oneSizer []).events = [Event.sent statNilPacket]) :=
  ⟨rfl, rfl, by decide, rfl⟩

/-- C8 (amended): the sender invokes the progress callback once per
metadata-carrying Stat (immediately before sending it) and once per non-empty
Data chunk (immediately after sending it); the terminating Stat, the Fin echo
and the zero-length Data terminator trigger no invocation; the cumulative count
passed is monotonically non-decreasing across the whole exchange; and exactly
one invocation has isFinal = true, occurring last, when Send returns. -/
theorem progress_callback_discipline (psize : Packet → Nat) (opens : Nat → OpenResult)
    (entries : List Stat) (inputs : List (Option Packet)) (id : Nat)
    (chunks : List (List Nat)) (cur : Nat) :
    ((senderSendEmit psize entries).events.map eventShape
        = List.flatten (List.replicate entries.length
            [EvShape.cbProgress, EvShape.sentStatMeta]) ++ [EvShape.sentStatNil])
    ∧ ((sendFile psize id (OpenResult.copied chunks false) cur).events.map eventShape
        = List.flatten ((chunks.filter (fun c => !c.isEmpty)).map
            (fun _ => [EvShape.sentDataChunk, EvShape.cbProgress]))
          ++ [EvShape.sentDataTerm])
    ∧ ((sendFile psize id OpenResult.openFail cur).events.map eventShape
        = [EvShape.sentDataTerm])
    ∧ List.Chain' (fun a b => a ≤ b) (cbValues (sendModelEvents psize opens entries inputs))
    ∧ (cbFinalCount (sendModelEvents psize opens entries inputs) = 1)
    ∧ ((sendModelEvents psize opens entries inputs).getLast?
        = some (Event.cb (senderRunLoop psize opens (senderSendEmit psize entries).files
            (senderSendEmit psize entries).progressCurrent inputs).progressCurrent true)) := by
  refine ⟨senderSendGo_shapes psize entries 0 [] 0, ?_, rfl, ?_, ?_, ?_⟩
  · simp only [sendFile, Bool.false_eq_true, if_false]
    rw [List.map_append, writeChunks_shapes]
    rfl
  · exact (sendModel_pb psize opens entries inputs).1
  · simp only [sendModelEvents, senderSendEmit]
    rw [cbFinalCount_append, cbFinalCount_append]
    rw [senderSendGo_cbFinal, senderRunLoop_cbFinal]
    rfl
  · simp only [sendModelEvents]
    rw [List.append_assoc, List.getLast?_append, List.getLast?_concat]
    rfl

/- ===== Helper lemmas for the synchronized stream (C9) ===== -/

theorem sendPhaseRun_append (a b : List StreamEvent) :
    ∀ s : SendPhase,
    sendPhaseRun s (a ++ b)
      = match sendPhaseRun s a with
        | none => none
        | some s' => sendPhaseRun s' b := by
  induction a with
  | nil => intro s; rfl
  | cons e rest ih =>
    intro s
    cases hs : sendPhaseStep s e with
    | none => simp [sendPhaseRun, hs]
    | some s' => simp [sendPhaseRun, hs, ih s']

theorem sendPhaseRun_replicate (n : Nat) :
    sendPhaseRun SendPhase.idle (List.flatten (List.replicate n syncSendProgram))
      = some SendPhase.idle := by
  induction n with
  | zero => rfl
  | succ k ih =>
    rw [List.replicate_succ, List.flatten_cons, sendPhaseRun_append]
    exact ih

theorem sendPhaseRun_prefix_isSome {l m : List StreamEvent} (hp : l <+: m)
    (hm : (sendPhaseRun SendPhase.idle m).isSome) :
    (sendPhaseRun SendPhase.idle l).isSome := by
  obtain ⟨t, rfl⟩ := hp
  rw [sendPhaseRun_append] at hm
  cases hl : sendPhaseRun SendPhase.idle l with
  | none => rw [hl] at hm; simp at hm
  | some s => simp

theorem sendPhaseRun_counts :
    ∀ (l : List StreamEvent) (s0 s : SendPhase), sendPhaseRun s0 l = some s →
    (l.count StreamEvent.lock + lockBal s0 = l.count StreamEvent.unlock + lockBal s)
    ∧ (l.count StreamEvent.sendStart + sendBal s0
      = l.count StreamEvent.sendEnd + sendBal s) := by
  intro l
  induction l with
  | nil =>
    intro s0 s h
    simp [sendPhaseRun] at h
    subst h
    simp
  | cons e rest ih =>
    intro s0 s h
    cases s0 <;> cases e <;> simp only [sendPhaseRun, sendPhaseStep] at h <;>
      first
        | exact Option.noConfusion h
        | (obtain ⟨h1, h2⟩ := ih _ _ h
           simp only [lockBal, sendBal] at h1 h2 ⊢
           simp only [List.count_cons]
           constructor <;> simp <;> omega)

theorem proj_cons (t u : Nat) (e : StreamEvent) (rest : List (Nat × StreamEvent)) :
    proj t ((u, e) :: rest) = if u = t then e :: proj t rest else proj t rest := by
  by_cases hu : u = t
  · simp [proj, List.filter_cons, hu]
  · simp [proj, List.filter_cons, hu]

theorem runHolder_counts :
    ∀ (tr : List (Nat × StreamEvent)) (h0 h : Option Nat),
    runHolder h0 tr = some h → ∀ t : Nat,
    (proj t tr).count StreamEvent.lock + (if h0 = some t then 1 else 0)
      = (proj t tr).count StreamEvent.unlock + (if h = some t then 1 else 0) := by
  intro tr
  induction tr with
  | nil =>
    intro h0 h hrun t
    simp [runHolder] at hrun
    subst hrun
    rfl
  | cons ev rest ih =>
    intro h0 h hrun t
    rcases ev with ⟨u, e⟩
    rw [proj_cons]
    cases e with
    | lock =>
      cases h0 with
      | some v => simp [runHolder, holderStep] at hrun
      | none =>
        have hrun' : runHolder (some u) rest = some h := by
          simpa [runHolder, holderStep] using hrun
        have iht := ih (some u) h hrun' t
        by_cases hu : u = t
        · subst hu
          simp [List.count_cons] at iht ⊢
          omega
        · rw [if_neg hu]
          simpa [hu] using iht
    | unlock =>
      cases h0 with
      | none => simp [runHolder, holderStep] at hrun
      | some v =>
        by_cases hv : v = u
        · subst hv
          have hrun' : runHolder none rest = some h := by
            simpa [runHolder, holderStep] using hrun
          have iht := ih none h hrun' t
          by_cases hu : v = t
          · subst hu
            simp [List.count_cons] at iht ⊢
            omega
          · rw [if_neg hu]
            simpa [hu] using iht
        · exfalso
          simp [runHolder, holderStep, hv] at hrun
    | sendStart =>
      have hrun' : runHolder h0 rest = some h := by
        simpa [runHolder, holderStep] using hrun
      have iht := ih h0 h hrun' t
      by_cases hu : u = t
      · rw [if_pos hu]
        simpa [List.count_cons] using iht
      · rw [if_neg hu]
        exact iht
    | sendEnd =>
      have hrun' : runHolder h0 rest = some h := by
        simpa [runHolder, holderStep] using hrun
      have iht := ih h0 h hrun' t
      by_cases hu : u = t
      · rw [if_pos hu]
        simpa [List.count_cons] using iht
      · rw [if_neg hu]
        exact iht
    | recvStart =>
      have hrun' : runHolder h0 rest = some h := by
        simpa [runHolder, holderStep] using hrun
      have iht := ih h0 h hrun' t
      by_cases hu : u = t
      · rw [if_pos hu]
        simpa [List.count_cons] using iht
      · rw [if_neg hu]
        exact iht
    | recvEnd =>
      have hrun' : runHolder h0 rest = some h := by
        simpa [runHolder, holderStep] using hrun
      have iht := ih h0 h hrun' t
      by_cases hu : u = t
      · rw [if_pos hu]
        simpa [List.count_cons] using iht
      · rw [if_neg hu]
        exact iht

theorem midSend_holder {tr : List (Nat × StreamEvent)} {h : Option Nat} {a : Nat}
    (hrun : runHolder none tr = some h)
    (hprog : ∃ n : Nat, proj a tr <+: List.flatten (List.replicate n syncSendProgram))
    (hmid : midSend (proj a tr)) : h = some a := by
  obtain ⟨n, hpre⟩ := hprog
  have hacc : (sendPhaseRun SendPhase.idle (proj a tr)).isSome :=
    sendPhaseRun_prefix_isSome hpre (by rw [sendPhaseRun_replicate]; rfl)
  obtain ⟨s, hs⟩ := Option.isSome_iff_exists.mp hacc
  obtain ⟨hlock, hsend⟩ := sendPhaseRun_counts (proj a tr) SendPhase.idle s hs
  have hsending : s = SendPhase.sending := by
    unfold midSend at hmid
    cases s <;> simp [sendBal] at hsend ⊢ <;> omega
  subst hsending
  have hbal : (proj a tr).count StreamEvent.lock
      = (proj a tr).count StreamEvent.unlock + 1 := by
    simpa [lockBal] using hlock
  have hinv := runHolder_counts tr none h hrun a
  by_cases hh : h = some a
  · exact hh
  · exfalso
    simp [hh] at hinv
    omega

/- ===== C9 ===== -/

/-- C9: syncStream.SendMsg brackets the underlying SendMsg with one mutex, so in
any interleaved trace that the mutex semantics admits, where each task's own
event sequence is a prefix of repeated SendMsg calls, no two tasks are ever
inside the underlying SendMsg at once (their send intervals cannot overlap);
and the receive path is passed through with no lock or unlock at all. -/
theorem sync_send_mutual_exclusion :
    (sendPhaseRun SendPhase.idle syncSendProgram = some SendPhase.idle)
    ∧ (StreamEvent.lock ∉ syncRecvProgram ∧ StreamEvent.unlock ∉ syncRecvProgram)
    ∧ ∀ tr : List (Nat × StreamEvent),
        (runHolder none tr).isSome →
        (∀ t : Nat, ∃ n : Nat,
          proj t tr <+: List.flatten (List.replicate n syncSendProgram)) →
        ∀ a b : Nat, midSend (proj a tr) → midSend (proj b tr) → a = b := by
  refine ⟨rfl, ⟨by decide, by decide⟩, ?_⟩
  intro tr hmutex hprog a b ha hb
  obtain ⟨h, hh⟩ := Option.isSome_iff_exists.mp hmutex
  have h1 := midSend_holder hh (hprog a) ha
  have h2 := midSend_holder hh (hprog b) hb
  exact Option.some.inj (h1.symm.trans h2)

theorem sync_send_mutual_exclusion_wit :
    (runHolder none witTrace).isSome ∧ midSend (proj 0 witTrace) ∧ 0 = 0 := by
  have hprog : ∀ t : Nat, ∃ n : Nat,
      proj t witTrace <+: List.flatten (List.replicate n syncSendProgram) := by
    intro t
    by_cases ht : t = 0
    · subst ht
      exact ⟨1, ⟨[StreamEvent.sendEnd, StreamEvent.unlock], rfl⟩⟩
    · refine ⟨0, ?_⟩
      have hp : proj t witTrace = [] := by
        simp [proj, witTrace, List.filter_cons, Ne.symm ht]
      rw [hp]
      exact List.nil_prefix
  refine ⟨by decide, ?_, ?_⟩
  · unfold midSend
    decide
  · exact (sync_send_mutual_exclusion).2.2 witTrace (by decide) hprog 0 0
      (by unfold midSend; decide) (by unfold midSend; decide)

end Fsutil
